import Mathlib

/-!
Shallow embedding of `src/convert-py-to-notebook.py`: the line-to-cell
segmentation and notebook assembly of a Python-script-to-Jupyter-notebook
converter.  Text is modelled as `List Char`.
-/

namespace PyToNb

/-- Characters that Python `str.splitlines` treats as line boundaries
(`\n`, `\r`, `\v`, `\f`, FS, GS, RS, NEL, LINE SEPARATOR, PARAGRAPH
SEPARATOR; a `\r\n` pair counts as a single boundary and is handled in
`splitlines` itself). -/
def isLineBreak (c : Char) : Bool :=
  c == '\n' || c == '\r' || c == '\x0b' || c == '\x0c' ||
  c == '\x1c' || c == '\x1d' || c == '\x1e' || c == '\x85' ||
  c == '\u2028' || c == '\u2029'

/-- Characters Python `str.strip()` removes (ASCII whitespace, the C0
separators, NEL and NBSP; further Unicode space characters exist but are
not relevant to the inputs considered here). -/
def isSpaceChar (c : Char) : Bool :=
  c == ' ' || c == '\t' || c == '\n' || c == '\r' || c == '\x0b' || c == '\x0c' ||
  c == '\x1c' || c == '\x1d' || c == '\x1e' || c == '\x1f' || c == '\x85' || c == '\xa0'

/-- Prepend a character to the first line of a line list (used for the
non-boundary characters while splitting). -/
def consFirst (c : Char) : List (List Char) → List (List Char)
  | [] => [[c]]
  | l :: ls => (c :: l) :: ls

/-- Python `py_content.splitlines(True)` (line 35 of the source): split into
lines keeping each line's terminator; `\r\n` is one terminator. -/
def splitlines : List Char → List (List Char)
  | [] => []
  | c :: rest =>
    if c == '\r' then
      match rest with
      | '\n' :: rest2 => ['\r', '\n'] :: splitlines rest2
      | r => ['\r'] :: splitlines r
    else if isLineBreak c then
      [c] :: splitlines rest
    else
      consFirst c (splitlines rest)

/-- Python `s.strip()`, left part. -/
def lstripWS (l : List Char) : List Char := l.dropWhile isSpaceChar

/-- Python `s.strip()`, right part. -/
def rstripWS (l : List Char) : List Char := (l.reverse.dropWhile isSpaceChar).reverse

/-- Python `s.strip()` with no arguments: drop whitespace at both ends. -/
def pyStrip (l : List Char) : List Char := rstripWS (lstripWS l)

/-- Python `s.rstrip('\n')`: drop every trailing newline character. -/
def rstripNl (l : List Char) : List Char :=
  (l.reverse.dropWhile (fun c => c == '\n')).reverse

/-- Python `pat in s` for strings: `pat` occurs as a contiguous substring. -/
def hasSubstring : List Char → List Char → Bool
  | [], pat => pat.isEmpty
  | c :: rest, pat => pat.isPrefixOf (c :: rest) || hasSubstring rest pat

/-- The two notebook cell kinds produced by the converter. -/
inductive CellType where
  | code
  | markdown
  deriving DecidableEq, Repr

/-- `processed_source[-1] = processed_source[-1].rstrip('\n')` (line 14):
replace the last element of a list by its newline-stripped form. -/
def setLastRstripNl : List (List Char) → List (List Char)
  | [] => []
  | l :: ls => if ls.isEmpty then [rstripNl l] else l :: setLastRstripNl ls

/-- A notebook cell.  The Python dict also carries `metadata = {}` and, for
code cells only, `execution_count = None` and `outputs = []`; those fields
are constants fully determined by `cell_type` and carry no information, so
the model keeps just the type and the source lines. -/
structure Cell where
  cell_type : CellType
  source : List (List Char)
  deriving DecidableEq, Repr

/-- `create_notebook_cell` (source lines 8-25): normalize every source line
to end in exactly one newline, then strip the newline(s) from the final
line. -/
def create_notebook_cell (cell_type : CellType) (source_lines : List (List Char)) : Cell :=
  { cell_type := cell_type
    source := setLastRstripNl (source_lines.map (fun line => rstripNl line ++ ['\n'])) }

/-- The notebook document.  `metadata` (kernelspec / language_info) is a
constant record in the source and is omitted; `nbformat` and
`nbformat_minor` are kept as the constants 4 and 5. -/
structure Notebook where
  cells : List Cell
  nbformat : Nat
  nbformat_minor : Nat
  deriving DecidableEq, Repr

/-- The loop state of `convert_py_to_ipynb_content` (source lines 67-70):
accumulated cells, the current accumulator, the current cell type, and the
two flags. -/
structure ScanState where
  cells : List Cell
  current_cell_lines : List (List Char)
  cell_type : CellType
  delimiter_found : Bool
  processed_first_line : Bool
  deriving DecidableEq, Repr

/-- Source line 74: `line.strip().startswith(cleaned_delimiter)`. -/
def isDelimiterLine (cleaned_delimiter line : List Char) : Bool :=
  cleaned_delimiter.isPrefixOf (pyStrip line)

/-- Source line 81: `'[markdown]' in line.lower()` (ASCII lowering; the
marker itself is ASCII). -/
def markdownHint (line : List Char) : Bool :=
  hasSubstring (line.map Char.toLower) ("[markdown]".toList)

/-- One iteration of the `for line in lines` loop (source lines 72-92). -/
def stepLine (cleaned_delimiter : List Char) (st : ScanState) (line : List Char) : ScanState :=
  if isDelimiterLine cleaned_delimiter line then
    { cells := if st.current_cell_lines.isEmpty then st.cells
               else st.cells ++ [create_notebook_cell st.cell_type st.current_cell_lines]
      current_cell_lines := [line]
      cell_type := if markdownHint line then CellType.markdown else CellType.code
      delimiter_found := true
      processed_first_line := true }
  else
    { st with
      current_cell_lines := st.current_cell_lines ++ [line]
      processed_first_line := true }

/-- The loop's initial state (source lines 67-70). -/
def initState : ScanState :=
  { cells := []
    current_cell_lines := []
    cell_type := CellType.code
    delimiter_found := false
    processed_first_line := false }

/-- The whole `for line in lines` loop. -/
def scanLines (cleaned_delimiter : List Char) (lines : List (List Char)) : ScanState :=
  lines.foldl (stepLine cleaned_delimiter) initState

/-- The condition of source line 96:
`current_cell_lines or (delimiter_found and not processed_first_line)`. -/
def emitLastCond (st : ScanState) : Bool :=
  !st.current_cell_lines.isEmpty || (st.delimiter_found && !st.processed_first_line)

/-- Source lines 96-97: append the last remaining cell when the condition
holds. -/
def finalCells (st : ScanState) : List Cell :=
  if emitLastCond st then
    st.cells ++ [create_notebook_cell st.cell_type st.current_cell_lines]
  else st.cells

/-- The outcome of a successful conversion: the document, the cell count,
the (possibly overridden) delimiter flag, and the two advisory notices the
source surfaces through `st.warning`. -/
structure ConvertResult where
  notebook : Notebook
  num_cells : Nat
  delimiter_found : Bool
  warned_empty_input : Bool
  warned_not_found : Bool
  deriving DecidableEq, Repr

/-- `convert_py_to_ipynb_content` (source lines 28-115).  `none` models the
error return `(None, 0, False)` of line 40; the final `json.dumps` cannot
fail on this data model, so the `except` of line 113 has no counterpart. -/
def convert_py_to_ipynb_content (py_content delimiter_string : List Char) :
    Option ConvertResult :=
  let lines := splitlines py_content
  let cleaned_delimiter := pyStrip delimiter_string
  if cleaned_delimiter.isEmpty then none
  else
    let stF := scanLines cleaned_delimiter lines
    let cells := finalCells stF
    let warned_empty := !emitLastCond stF && lines.isEmpty
    let num_cells := cells.length
    let warned_not_found :=
      !stF.delimiter_found && !lines.isEmpty && decide (num_cells ≤ 1)
    let found := stF.delimiter_found || warned_not_found
    some { notebook := { cells := cells, nbformat := 4, nbformat_minor := 5 }
           num_cells := num_cells
           delimiter_found := found
           warned_empty_input := warned_empty
           warned_not_found := warned_not_found }

/-! Predicates used to state the specification's properties. -/

/-- The text ends with a newline character. -/
def endsWithNl (l : List Char) : Bool :=
  match l.getLast? with
  | some c => c == '\n'
  | none => false

/-- The line ends with exactly one trailing newline character: stripping
all trailing newlines and adding one back is the identity. -/
def lineOk (l : List Char) : Bool := decide (rstripNl l ++ ['\n'] = l)

/-- The line carries no trailing newline character. -/
def lastNoNl (l : List Char) : Bool := decide (rstripNl l = l)

/-- Every line ends with exactly one newline, except that the final line
may instead carry none (the shape `splitlines` produces on `\n`-terminated
text). -/
def goodLines : List (List Char) → Bool
  | [] => true
  | l :: ls => (if ls.isEmpty then lineOk l || lastNoNl l else lineOk l) && goodLines ls

/-- The cell-source normal form of the spec's §3 Cell invariant: every
stored line but the last ends with exactly one newline, and the last ends
with none. -/
def sourceNormOk : List (List Char) → Bool
  | [] => true
  | l :: ls => (if ls.isEmpty then lastNoNl l else lineOk l) && sourceNormOk ls

/-- Every line boundary occurring in the text is a plain `\n` or a `\r\n`
pair: no bare carriage returns, vertical tabs, form feeds, or other
Unicode line separators. -/
def onlyStdNewlines : List Char → Bool
  | [] => true
  | c :: rest =>
    if c == '\r' then
      match rest with
      | '\n' :: rest2 => onlyStdNewlines rest2
      | _ => false
    else
      (!isLineBreak c || c == '\n') && onlyStdNewlines rest

/-- Number of delimiter lines among the given lines. -/
def countDelimLines (cleaned_delimiter : List Char) (ls : List (List Char)) : Nat :=
  (ls.filter (isDelimiterLine cleaned_delimiter)).length

/-- Undo the newline-normalization of a cell that is followed by further
cells: its final stored line had its newline stripped, so add it back. -/
def restoreCell (c : Cell) : List Char := c.source.flatten ++ ['\n']

/-- Undo the newline-normalization of a whole cell list: every cell but
the last gets the newline of its final line back; the last cell gets one
back exactly when the original text ended with a newline (`origEndsNl`). -/
def restoreCells : List Cell → Bool → List Char
  | [], _ => []
  | c :: cs, origEndsNl =>
    (if cs.isEmpty then c.source.flatten ++ (if origEndsNl then ['\n'] else [])
     else restoreCell c) ++ restoreCells cs origEndsNl

/-! Helper lemmas about `dropWhile`, `endsWithNl` and `rstripNl`. -/

theorem head_dropWhile_false {α : Type} (p : α → Bool) :
    ∀ (l : List α) (a : α), (List.dropWhile p l).head? = some a → p a = false := by
  intro l
  induction l with
  | nil => intro a h; exact Option.noConfusion h
  | cons x xs ih =>
    intro a h
    rw [List.dropWhile_cons] at h
    by_cases hx : p x = true
    · exact ih a (by simpa [hx] using h)
    · rw [if_neg hx] at h
      have hxa : x = a := by simpa using h
      rw [← hxa]
      simpa using hx

theorem endsWithNl_concat (l : List Char) (a : Char) :
    endsWithNl (l ++ [a]) = (a == '\n') := by
  simp [endsWithNl, List.getLast?_concat]

theorem endsWithNl_cons_cons (a b : Char) (l : List Char) :
    endsWithNl (a :: b :: l) = endsWithNl (b :: l) := by
  simp [endsWithNl, List.getLast?_cons_cons]

theorem rstripNl_append_nl (l : List Char) : rstripNl (l ++ ['\n']) = rstripNl l := by
  simp [rstripNl, List.dropWhile_cons]

theorem rstripNl_of_not_ends {l : List Char} (h : endsWithNl l = false) :
    rstripNl l = l := by
  cases hl : l.reverse with
  | nil =>
    have : l = [] := by
      have := congrArg List.reverse hl
      simpa using this
    simp [this, rstripNl]
  | cons a t =>
    have hgl : l.getLast? = some a := by rw [← List.head?_reverse, hl]; rfl
    have ha : (a == '\n') = false := by
      unfold endsWithNl at h
      rw [hgl] at h
      exact h
    have hlr : l = (a :: t).reverse := by
      rw [← hl, List.reverse_reverse]
    rw [rstripNl, hl, List.dropWhile_cons, ha]
    simpa using hlr.symm

theorem endsWithNl_rstripNl (l : List Char) : endsWithNl (rstripNl l) = false := by
  rw [rstripNl]
  cases h : List.dropWhile (fun c => c == '\n') l.reverse with
  | nil => simp [endsWithNl]
  | cons a t =>
    have ha : (a == '\n') = false :=
      head_dropWhile_false _ l.reverse a (by rw [h]; rfl)
    have hgl : ((a :: t).reverse).getLast? = some a := by
      rw [← List.head?_reverse, List.reverse_reverse]; rfl
    simp [endsWithNl, hgl, ha]

theorem rstripNl_idem (l : List Char) : rstripNl (rstripNl l) = rstripNl l :=
  rstripNl_of_not_ends (endsWithNl_rstripNl l)

/-! Helper lemmas about `lineOk` and `lastNoNl`. -/

theorem lineOk_eq {l : List Char} (h : lineOk l = true) : rstripNl l ++ ['\n'] = l :=
  of_decide_eq_true h

theorem lastNoNl_eq {l : List Char} (h : lastNoNl l = true) : rstripNl l = l :=
  of_decide_eq_true h

theorem lineOk_endsWithNl {l : List Char} (h : lineOk l = true) : endsWithNl l = true := by
  rw [← lineOk_eq h, endsWithNl_concat]
  rfl

theorem lastNoNl_not_ends {l : List Char} (h : lastNoNl l = true) : endsWithNl l = false := by
  rw [← lastNoNl_eq h]
  exact endsWithNl_rstripNl l

theorem lastNoNl_of_not_ends {l : List Char} (h : endsWithNl l = false) : lastNoNl l = true :=
  decide_eq_true (rstripNl_of_not_ends h)

theorem lastNoNl_rstripNl (l : List Char) : lastNoNl (rstripNl l) = true :=
  decide_eq_true (rstripNl_idem l)

theorem lineOk_ne_nil {l : List Char} (h : lineOk l = true) : l ≠ [] := by
  intro hl
  rw [hl] at h
  exact absurd (lineOk_eq h) (by simp [hl])

theorem endsWithNl_cons {c : Char} {l : List Char} (h : endsWithNl l = false)
    (hc : (c == '\n') = false) : endsWithNl (c :: l) = false := by
  cases l with
  | nil => simpa [endsWithNl] using hc
  | cons b t => rw [endsWithNl_cons_cons]; exact h

theorem lineOk_cons {c : Char} {l : List Char} (hc : (c == '\n') = false)
    (h : lineOk l = true) : lineOk (c :: l) = true := by
  have hl := lineOk_eq h
  have h1 : c :: l = (c :: rstripNl l) ++ ['\n'] := by
    rw [List.cons_append, hl]
  have h2 : rstripNl (c :: rstripNl l) = c :: rstripNl l :=
    rstripNl_of_not_ends (endsWithNl_cons (endsWithNl_rstripNl l) hc)
  apply decide_eq_true
  rw [h1, rstripNl_append_nl, h2]

theorem lastNoNl_cons {c : Char} {l : List Char} (hc : (c == '\n') = false)
    (h : lastNoNl l = true) : lastNoNl (c :: l) = true :=
  decide_eq_true (rstripNl_of_not_ends (endsWithNl_cons (lastNoNl_not_ends h) hc))

/-! Helper lemmas about `splitlines`. -/

theorem flatten_consFirst (c : Char) (ls : List (List Char)) :
    (consFirst c ls).flatten = c :: ls.flatten := by
  cases ls <;> simp [consFirst]

theorem splitlines_crlf (rest : List Char) :
    splitlines ('\r' :: '\n' :: rest) = ['\r', '\n'] :: splitlines rest := by
  rw [splitlines.eq_2]
  simp

theorem splitlines_cr {rest : List Char} (h : rest.head? ≠ some '\n') :
    splitlines ('\r' :: rest) = ['\r'] :: splitlines rest := by
  cases rest with
  | nil => rfl
  | cons a t =>
    have ha : a ≠ '\n' := by
      intro he
      exact h (by rw [he]; rfl)
    rw [splitlines.eq_3 _ _ (by intro rest2 he; exact ha (by injection he))]
    simp

theorem splitlines_break {c : Char} (rest : List Char) (hb : isLineBreak c = true)
    (hc : c ≠ '\r') : splitlines (c :: rest) = [c] :: splitlines rest := by
  have hc' : (c == '\r') = false := by simpa using hc
  cases rest with
  | nil =>
    rw [splitlines.eq_3 _ _ (by intro rest2 he; exact List.noConfusion he)]
    simp [hc', hb]
  | cons a t =>
    by_cases ha : a = '\n'
    · subst ha
      rw [splitlines.eq_2]
      simp [hc', hb]
    · rw [splitlines.eq_3 _ _ (by intro rest2 he; exact ha (by injection he))]
      simp [hc', hb]

theorem splitlines_other {c : Char} (rest : List Char) (hb : isLineBreak c = false) :
    splitlines (c :: rest) = consFirst c (splitlines rest) := by
  have hc' : (c == '\r') = false := by
    by_contra hx
    have : c = '\r' := by
      have := Bool.of_not_eq_false hx
      simpa using this
    rw [this] at hb
    simp [isLineBreak] at hb
  cases rest with
  | nil =>
    rw [splitlines.eq_3 _ _ (by intro rest2 he; exact List.noConfusion he)]
    simp [hc', hb]
  | cons a t =>
    by_cases ha : a = '\n'
    · subst ha
      rw [splitlines.eq_2]
      simp [hc', hb]
    · rw [splitlines.eq_3 _ _ (by intro rest2 he; exact ha (by injection he))]
      simp [hc', hb]

theorem splitlines_flatten (l : List Char) : (splitlines l).flatten = l := by
  induction l using splitlines.induct with
  | case1 => rfl
  | case2 c hc rest2 ih =>
    rw [beq_iff_eq] at hc
    subst hc
    rw [splitlines_crlf]
    simpa using ih
  | case3 c hc r hr ih =>
    rw [beq_iff_eq] at hc
    subst hc
    have hh : r.head? ≠ some '\n' := by
      intro hx
      cases r with
      | nil => exact Option.noConfusion hx
      | cons a t => exact hr t (by injection hx with hx1; rw [hx1])
    rw [splitlines_cr hh]
    simpa using ih
  | case4 c rest hc hb ih =>
    rw [splitlines_break rest hb (by simpa using hc)]
    simpa using ih
  | case5 c rest hc hb ih =>
    rw [splitlines_other rest (by simpa using hb), flatten_consFirst, ih]

theorem eq_nil_of_splitlines_eq_nil {l : List Char} (h : splitlines l = []) : l = [] := by
  have := splitlines_flatten l
  rw [h] at this
  simpa using this.symm

theorem splitlines_ne_nil {l : List Char} (h : l ≠ []) : splitlines l ≠ [] := by
  intro hs
  exact h (eq_nil_of_splitlines_eq_nil hs)

theorem mem_splitlines_ne_nil {l : List Char} :
    ∀ ℓ ∈ splitlines l, ℓ ≠ [] := by
  induction l using splitlines.induct with
  | case1 => intro ℓ h; exact absurd h (by simp [splitlines])
  | case2 c hc rest2 ih =>
    rw [beq_iff_eq] at hc
    subst hc
    rw [splitlines_crlf]
    intro ℓ h
    rcases List.mem_cons.mp h with h1 | h2
    · rw [h1]; simp
    · exact ih ℓ h2
  | case3 c hc r hr ih =>
    rw [beq_iff_eq] at hc
    subst hc
    have hh : r.head? ≠ some '\n' := by
      intro hx
      cases r with
      | nil => exact Option.noConfusion hx
      | cons a t => exact hr t (by injection hx with hx1; rw [hx1])
    rw [splitlines_cr hh]
    intro ℓ h
    rcases List.mem_cons.mp h with h1 | h2
    · rw [h1]; simp
    · exact ih ℓ h2
  | case4 c rest hc hb ih =>
    rw [splitlines_break rest hb (by simpa using hc)]
    intro ℓ h
    rcases List.mem_cons.mp h with h1 | h2
    · rw [h1]; simp
    · exact ih ℓ h2
  | case5 c rest hc hb ih =>
    rw [splitlines_other rest (by simpa using hb)]
    intro ℓ h
    cases hs : splitlines rest with
    | nil =>
      rw [hs] at h
      have h1 : ℓ = [c] := by simpa [consFirst] using h
      rw [h1]; simp
    | cons m ms =>
      rw [hs] at h
      rcases List.mem_cons.mp (by simpa [consFirst] using h) with h1 | h2
      · rw [h1]; simp
      · exact ih ℓ (by rw [hs]; exact List.mem_cons_of_mem m h2)

/-! `splitlines` of a text whose line boundaries are all `\n` produces
`goodLines`-shaped lines. -/

theorem endsWithNl_singleton (a : Char) : endsWithNl [a] = (a == '\n') := rfl

theorem onlyStd_crlf (rest : List Char) :
    onlyStdNewlines ('\r' :: '\n' :: rest) = onlyStdNewlines rest := by
  rw [onlyStdNewlines.eq_2]
  simp

theorem onlyStd_cr {rest : List Char} (h : rest.head? ≠ some '\n') :
    onlyStdNewlines ('\r' :: rest) = false := by
  cases rest with
  | nil => rfl
  | cons a t =>
    have ha : a ≠ '\n' := by
      intro he
      exact h (by rw [he]; rfl)
    rw [onlyStdNewlines.eq_3 _ _ (by intro rest2 he; exact ha (by injection he))]
    simp

theorem onlyStd_cons {c : Char} (rest : List Char) (hc : c ≠ '\r') :
    onlyStdNewlines (c :: rest) =
      ((!isLineBreak c || (c == '\n')) && onlyStdNewlines rest) := by
  have hc' : (c == '\r') = false := by simpa using hc
  cases rest with
  | nil =>
    rw [onlyStdNewlines.eq_3 _ _ (by intro rest2 he; exact List.noConfusion he)]
    simp [hc']
  | cons a t =>
    by_cases ha : a = '\n'
    · subst ha
      rw [onlyStdNewlines.eq_2]
      simp [hc']
    · rw [onlyStdNewlines.eq_3 _ _ (by intro rest2 he; exact ha (by injection he))]
      simp [hc']

theorem goodLines_consFirst {c : Char} {ls : List (List Char)}
    (hc : isLineBreak c = false) (h : goodLines ls = true) :
    goodLines (consFirst c ls) = true := by
  have hcnl : (c == '\n') = false := by
    by_contra hx
    have : c = '\n' := by simpa using Bool.of_not_eq_false hx
    rw [this] at hc
    exact absurd hc (by decide)
  cases ls with
  | nil =>
    have : lastNoNl [c] = true := by
      apply lastNoNl_of_not_ends
      rw [endsWithNl_singleton]
      exact hcnl
    simp [consFirst, goodLines, this]
  | cons m ms =>
    rw [consFirst]
    rw [goodLines, Bool.and_eq_true] at h ⊢
    refine ⟨?_, h.2⟩
    cases hms : ms.isEmpty with
    | true =>
      rw [hms] at h
      have h1 := h.1
      rw [if_pos rfl] at h1 ⊢
      rcases Bool.or_eq_true_iff.mp h1 with h2 | h2
      · exact Bool.or_eq_true_iff.mpr (Or.inl (lineOk_cons hcnl h2))
      · exact Bool.or_eq_true_iff.mpr (Or.inr (lastNoNl_cons hcnl h2))
    | false =>
      rw [hms] at h
      have h1 := h.1
      rw [if_neg (by simp)] at h1 ⊢
      exact lineOk_cons hcnl h1

theorem goodLines_splitlines {l : List Char} (h : onlyStdNewlines l = true) :
    goodLines (splitlines l) = true := by
  induction l using splitlines.induct with
  | case1 => rfl
  | case2 c hc rest2 ih =>
    rw [beq_iff_eq] at hc
    subst hc
    rw [onlyStd_crlf] at h
    rw [splitlines_crlf, goodLines, Bool.and_eq_true]
    refine ⟨?_, ih h⟩
    have hlo : lineOk ['\r', '\n'] = true := by decide
    cases (splitlines rest2).isEmpty <;> simp [hlo]
  | case3 c hc r hr ih =>
    rw [beq_iff_eq] at hc
    subst hc
    have hh : r.head? ≠ some '\n' := by
      intro hx
      cases r with
      | nil => exact Option.noConfusion hx
      | cons a t => exact hr t (by injection hx with hx1; rw [hx1])
    rw [onlyStd_cr hh] at h
    exact Bool.noConfusion h
  | case4 c rest hc hb ih =>
    have hcr : c ≠ '\r' := by simpa using hc
    rw [onlyStd_cons rest hcr, Bool.and_eq_true] at h
    rcases h with ⟨h1, h2⟩
    have hcn : c = '\n' := by
      rw [hb] at h1
      simpa using h1
    subst hcn
    rw [splitlines_break rest (by decide) (by decide)]
    rw [goodLines, Bool.and_eq_true]
    refine ⟨?_, ih h2⟩
    have hlo : lineOk ['\n'] = true := by decide
    cases (splitlines rest).isEmpty <;> simp [hlo]
  | case5 c rest hc hb ih =>
    have hcr : c ≠ '\r' := by simpa using hc
    rw [onlyStd_cons rest hcr, Bool.and_eq_true] at h
    have hb' : isLineBreak c = false := by simpa using hb
    rw [splitlines_other rest hb']
    exact goodLines_consFirst hb' (ih h.2)

/-! The original text ends with a newline exactly when the last produced
line does. -/

theorem endsWithNl_append {x ℓ : List Char} (h : ℓ ≠ []) :
    endsWithNl (x ++ ℓ) = endsWithNl ℓ := by
  unfold endsWithNl
  rw [List.getLast?_append]
  cases hg : ℓ.getLast? with
  | none => exact absurd (List.getLast?_eq_none_iff.mp hg) h
  | some a => rfl

theorem endsWithNl_flatten_last {ls : List (List Char)} (h : ls ≠ [])
    (hne : ∀ ℓ ∈ ls, ℓ ≠ []) :
    endsWithNl ls.flatten = endsWithNl (ls.getLast h) := by
  conv_lhs => rw [← List.dropLast_append_getLast h]
  rw [List.flatten_append]
  have h1 : ([ls.getLast h] : List (List Char)).flatten = ls.getLast h := by simp
  rw [h1]
  exact endsWithNl_append (hne _ (List.getLast_mem h))

/-! Helper lemmas about `create_notebook_cell`. -/

theorem setLastRstripNl_isEmpty (m : List (List Char)) :
    (setLastRstripNl m).isEmpty = m.isEmpty := by
  cases m with
  | nil => rfl
  | cons l ls =>
    rw [setLastRstripNl]
    cases hls : ls.isEmpty <;> simp [hls]

theorem create_source_isEmpty (ty : CellType) (r : List (List Char)) :
    (create_notebook_cell ty r).source.isEmpty = r.isEmpty := by
  unfold create_notebook_cell
  rw [setLastRstripNl_isEmpty]
  cases r <;> simp

theorem create_single (ty : CellType) (ℓ : List Char) :
    (create_notebook_cell ty [ℓ]).source = [rstripNl ℓ] := by
  unfold create_notebook_cell
  simp [setLastRstripNl, rstripNl_append_nl, rstripNl_idem]

theorem create_cons (ty : CellType) (ℓ : List Char) {r : List (List Char)} (h : r ≠ []) :
    (create_notebook_cell ty (ℓ :: r)).source =
      (rstripNl ℓ ++ ['\n']) :: (create_notebook_cell ty r).source := by
  unfold create_notebook_cell
  simp only [List.map_cons]
  rw [setLastRstripNl, if_neg]
  simp [h]

theorem cell_flatten (ty : CellType) :
    ∀ (r₀ : List (List Char)) (rL : List Char), (∀ ℓ ∈ r₀, lineOk ℓ = true) →
      (create_notebook_cell ty (r₀ ++ [rL])).source.flatten = r₀.flatten ++ rstripNl rL := by
  intro r₀
  induction r₀ with
  | nil =>
    intro rL _
    rw [List.nil_append, create_single]
    simp
  | cons ℓ r₀' ih =>
    intro rL h
    rw [List.cons_append, create_cons ty ℓ (by simp), List.flatten_cons,
        ih rL (fun m hm => h m (List.mem_cons_of_mem _ hm)),
        lineOk_eq (h ℓ (List.mem_cons_self _ _))]
    simp

theorem restoreCell_create (ty : CellType) (r₀ : List (List Char)) (rL : List Char)
    (h0 : ∀ ℓ ∈ r₀, lineOk ℓ = true) (hL : lineOk rL = true) :
    restoreCell (create_notebook_cell ty (r₀ ++ [rL])) = (r₀ ++ [rL]).flatten := by
  rw [restoreCell, cell_flatten ty r₀ rL h0, List.append_assoc, lineOk_eq hL,
      List.flatten_append]
  simp

theorem restoreCell_create_of_ne_nil (ty : CellType) {r : List (List Char)} (h : r ≠ [])
    (hok : ∀ ℓ ∈ r, lineOk ℓ = true) :
    restoreCell (create_notebook_cell ty r) = r.flatten := by
  conv_lhs => rw [← List.dropLast_append_getLast h]
  conv_rhs => rw [← List.dropLast_append_getLast h]
  exact restoreCell_create ty _ _
    (fun m hm => hok m (List.dropLast_subset r hm)) (hok _ (List.getLast_mem h))

theorem lastCell_restore (ty : CellType) (r₀ : List (List Char)) (rL : List Char)
    (h0 : ∀ ℓ ∈ r₀, lineOk ℓ = true) (hL : (lineOk rL || lastNoNl rL) = true) :
    (create_notebook_cell ty (r₀ ++ [rL])).source.flatten ++
      (if endsWithNl rL then ['\n'] else []) = (r₀ ++ [rL]).flatten := by
  rcases Bool.or_eq_true_iff.mp hL with h1 | h1
  · rw [lineOk_endsWithNl h1, if_pos rfl, cell_flatten ty r₀ rL h0, List.append_assoc,
        lineOk_eq h1, List.flatten_append]
    simp
  · rw [lastNoNl_not_ends h1, if_neg (by simp), List.append_nil,
        cell_flatten ty r₀ rL h0, lastNoNl_eq h1, List.flatten_append]
    simp

theorem create_normOk (ty : CellType) : ∀ r, sourceNormOk (create_notebook_cell ty r).source = true := by
  intro r
  induction r with
  | nil => rfl
  | cons ℓ r' ih =>
    cases r' with
    | nil =>
      rw [create_single]
      simp [sourceNormOk, lastNoNl_rstripNl]
    | cons m ms =>
      rw [create_cons ty ℓ (by simp)]
      rw [sourceNormOk, Bool.and_eq_true]
      constructor
      · rw [if_neg]
        · apply decide_eq_true
          rw [rstripNl_append_nl, rstripNl_idem]
        · rw [create_source_isEmpty]
          simp
      · exact ih

/-! Helper lemmas about the scan loop. -/

theorem stepLine_delim {d line : List Char} (h : isDelimiterLine d line = true)
    (st : ScanState) :
    stepLine d st line =
      { cells := if st.current_cell_lines.isEmpty then st.cells
                 else st.cells ++ [create_notebook_cell st.cell_type st.current_cell_lines]
        current_cell_lines := [line]
        cell_type := if markdownHint line then CellType.markdown else CellType.code
        delimiter_found := true
        processed_first_line := true } := by
  rw [stepLine, if_pos h]

theorem stepLine_not_delim {d line : List Char} (h : isDelimiterLine d line = false)
    (st : ScanState) :
    stepLine d st line =
      { st with current_cell_lines := st.current_cell_lines ++ [line]
                processed_first_line := true } := by
  rw [stepLine, if_neg (by simp [h])]

theorem stepLine_current_ne (d : List Char) (st : ScanState) (line : List Char) :
    (stepLine d st line).current_cell_lines ≠ [] := by
  rw [stepLine]
  split <;> simp

theorem stepLine_processed (d : List Char) (st : ScanState) (line : List Char) :
    (stepLine d st line).processed_first_line = true := by
  rw [stepLine]
  split <;> rfl

theorem foldl_current_ne (d : List Char) :
    ∀ (ls : List (List Char)) (st : ScanState), ls ≠ [] →
      (List.foldl (stepLine d) st ls).current_cell_lines ≠ [] := by
  intro ls
  induction ls with
  | nil => intro st h; exact absurd rfl h
  | cons ℓ rest ih =>
    intro st _
    rw [List.foldl_cons]
    cases rest with
    | nil => rw [List.foldl_nil]; exact stepLine_current_ne d st ℓ
    | cons b bs => exact ih (stepLine d st ℓ) (by simp)

theorem foldl_processed (d : List Char) :
    ∀ (ls : List (List Char)) (st : ScanState), ls ≠ [] →
      (List.foldl (stepLine d) st ls).processed_first_line = true := by
  intro ls
  induction ls with
  | nil => intro st h; exact absurd rfl h
  | cons ℓ rest ih =>
    intro st _
    rw [List.foldl_cons]
    cases rest with
    | nil => rw [List.foldl_nil]; exact stepLine_processed d st ℓ
    | cons b bs => exact ih (stepLine d st ℓ) (by simp)

theorem scan_found_ne_nil {d : List Char} {ls : List (List Char)}
    (h : (scanLines d ls).delimiter_found = true) : ls ≠ [] := by
  intro hls
  rw [hls] at h
  exact Bool.noConfusion h

theorem foldl_no_delim (d : List Char) :
    ∀ (ls : List (List Char)) (st : ScanState),
      (∀ ℓ ∈ ls, isDelimiterLine d ℓ = false) →
      List.foldl (stepLine d) st ls =
        { st with current_cell_lines := st.current_cell_lines ++ ls
                  processed_first_line := st.processed_first_line || !ls.isEmpty } := by
  intro ls
  induction ls with
  | nil =>
    intro st _
    cases st
    simp
  | cons ℓ rest ih =>
    intro st h
    rw [List.foldl_cons, stepLine_not_delim (h ℓ (List.mem_cons_self _ _)),
        ih _ (fun m hm => h m (List.mem_cons_of_mem _ hm))]
    cases st
    simp

theorem countDelim_cons (d ℓ : List Char) (rest : List (List Char)) :
    countDelimLines d (ℓ :: rest) =
      (if isDelimiterLine d ℓ then countDelimLines d rest + 1 else countDelimLines d rest) := by
  simp only [countDelimLines, List.filter_cons]
  split <;> simp

theorem foldl_count (d : List Char) :
    ∀ (ls : List (List Char)) (st : ScanState), st.current_cell_lines ≠ [] →
      (List.foldl (stepLine d) st ls).cells.length =
        st.cells.length + countDelimLines d ls := by
  intro ls
  induction ls with
  | nil => intro st _; simp [countDelimLines]
  | cons ℓ rest ih =>
    intro st hst
    rw [List.foldl_cons, countDelim_cons]
    by_cases hd : isDelimiterLine d ℓ = true
    · rw [if_pos hd, stepLine_delim hd, ih _ (by simp)]
      rw [if_neg (by simpa using List.isEmpty_eq_false.mpr hst)]
      simp
      omega
    · have hd' : isDelimiterLine d ℓ = false := by simpa using hd
      rw [if_neg (by simp [hd']), stepLine_not_delim hd', ih _ (by simp)]

/-! The round-trip lemma: scanning good lines and restoring the produced
cells gives back the concatenation of the lines. -/

theorem finalCells_of_current_ne {st : ScanState} (h : st.current_cell_lines ≠ []) :
    finalCells st = st.cells ++ [create_notebook_cell st.cell_type st.current_cell_lines] := by
  rw [finalCells, if_pos]
  rw [emitLastCond]
  simp [List.isEmpty_eq_false.mpr h]

theorem restoreCells_concat (cs : List Cell) (c : Cell) (e : Bool) :
    restoreCells (cs ++ [c]) e =
      (cs.map restoreCell).flatten ++ c.source.flatten ++ (if e then ['\n'] else []) := by
  induction cs with
  | nil => simp [restoreCells]
  | cons d ds ih =>
    rw [List.cons_append, restoreCells, if_neg (by simp), ih]
    simp [List.append_assoc]

theorem line_restore {ℓ : List Char} (h : (lineOk ℓ || lastNoNl ℓ) = true) :
    rstripNl ℓ ++ (if endsWithNl ℓ then ['\n'] else []) = ℓ := by
  rcases Bool.or_eq_true_iff.mp h with h1 | h1
  · rw [lineOk_endsWithNl h1, if_pos rfl]
    exact lineOk_eq h1
  · rw [lastNoNl_not_ends h1, if_neg (by simp), List.append_nil]
    exact lastNoNl_eq h1

theorem goodLines_cons_cons {ℓ r1 : List Char} {r2 : List (List Char)}
    (h : goodLines (ℓ :: r1 :: r2) = true) :
    lineOk ℓ = true ∧ goodLines (r1 :: r2) = true := by
  rw [goodLines, Bool.and_eq_true] at h
  rcases h with ⟨h1, h2⟩
  rw [if_neg (by simp)] at h1
  exact ⟨h1, h2⟩

theorem goodLines_singleton {ℓ : List Char} (h : goodLines [ℓ] = true) :
    (lineOk ℓ || lastNoNl ℓ) = true := by
  rw [goodLines, Bool.and_eq_true] at h
  have h1 := h.1
  simpa using h1

theorem scan_restore (d : List Char) :
    ∀ (ls : List (List Char)) (st : ScanState) (ℓL : List Char),
      goodLines ls = true →
      (∀ ℓ ∈ st.current_cell_lines, lineOk ℓ = true) →
      ls.getLast? = some ℓL →
      restoreCells (finalCells (List.foldl (stepLine d) st ls)) (endsWithNl ℓL) =
        (st.cells.map restoreCell).flatten ++ st.current_cell_lines.flatten ++ ls.flatten := by
  intro ls
  induction ls with
  | nil => intro st ℓL _ _ hlast; exact Option.noConfusion hlast
  | cons ℓ rest ih =>
    intro st ℓL hgood hcur hlast
    rw [List.foldl_cons]
    cases rest with
    | nil =>
      have hℓL : ℓ = ℓL := by
        have : some ℓ = some ℓL := hlast
        injection this
      subst hℓL
      have hgood1 := goodLines_singleton hgood
      rw [List.foldl_nil]
      by_cases hd : isDelimiterLine d ℓ = true
      · rw [stepLine_delim hd]
        rw [finalCells_of_current_ne (by simp)]
        rw [restoreCells_concat]
        simp only [create_single, List.flatten_cons, List.flatten_nil, List.append_nil]
        rw [List.append_assoc, line_restore hgood1]
        cases hce : st.current_cell_lines.isEmpty with
        | true =>
          rw [if_pos rfl]
          have : st.current_cell_lines = [] := List.isEmpty_eq_true.mp hce
          simp [this]
        | false =>
          rw [if_neg (by simp)]
          have hne : st.current_cell_lines ≠ [] := List.isEmpty_eq_false.mp hce
          rw [List.map_append, List.flatten_append, List.map_cons, List.map_nil,
              List.flatten_cons, List.flatten_nil, List.append_nil,
              restoreCell_create_of_ne_nil st.cell_type hne hcur]
      · have hd' : isDelimiterLine d ℓ = false := by simpa using hd
        rw [stepLine_not_delim hd']
        rw [finalCells_of_current_ne (by simp)]
        rw [restoreCells_concat]
        simp only
        rw [List.append_assoc, lastCell_restore st.cell_type st.current_cell_lines ℓ hcur hgood1,
            List.flatten_append]
        simp [List.append_assoc]
    | cons r1 r2 =>
      rcases goodLines_cons_cons hgood with ⟨hlo, hg'⟩
      have hlast' : (r1 :: r2).getLast? = some ℓL := by
        rwa [List.getLast?_cons_cons] at hlast
      by_cases hd : isDelimiterLine d ℓ = true
      · rw [stepLine_delim hd]
        rw [ih _ ℓL hg' (by intro m hm; rw [List.mem_singleton] at hm; rw [hm]; exact hlo) hlast']
        simp only
        cases hce : st.current_cell_lines.isEmpty with
        | true =>
          rw [if_pos rfl]
          have : st.current_cell_lines = [] := List.isEmpty_eq_true.mp hce
          simp [this]
        | false =>
          rw [if_neg (by simp)]
          have hne : st.current_cell_lines ≠ [] := List.isEmpty_eq_false.mp hce
          rw [List.map_append, List.flatten_append, List.map_cons, List.map_nil,
              List.flatten_cons, List.flatten_nil, List.append_nil,
              restoreCell_create_of_ne_nil st.cell_type hne hcur]
          simp [List.append_assoc]
      · have hd' : isDelimiterLine d ℓ = false := by simpa using hd
        rw [stepLine_not_delim hd']
        rw [ih _ ℓL hg' ?_ hlast']
        · simp [List.append_assoc]
        · intro m hm
          rcases List.mem_append.mp hm with hm1 | hm1
          · exact hcur m hm1
          · rw [List.mem_singleton] at hm1
            rw [hm1]
            exact hlo

/-! The result a successful conversion returns. -/

/-- The `ConvertResult` the conversion produces when the delimiter is
valid (the `else` branch of `convert_py_to_ipynb_content`). -/
def convertSuccess (py_content delimiter_string : List Char) : ConvertResult :=
  let lines := splitlines py_content
  let cleaned_delimiter := pyStrip delimiter_string
  let stF := scanLines cleaned_delimiter lines
  let cells := finalCells stF
  let warned_empty := !emitLastCond stF && lines.isEmpty
  let num_cells := cells.length
  let warned_not_found :=
    !stF.delimiter_found && !lines.isEmpty && decide (num_cells ≤ 1)
  let found := stF.delimiter_found || warned_not_found
  { notebook := { cells := cells, nbformat := 4, nbformat_minor := 5 }
    num_cells := num_cells
    delimiter_found := found
    warned_empty_input := warned_empty
    warned_not_found := warned_not_found }

theorem convert_eq_some (py_content : List Char) {delimiter_string : List Char}
    (h : (pyStrip delimiter_string).isEmpty = false) :
    convert_py_to_ipynb_content py_content delimiter_string =
      some (convertSuccess py_content delimiter_string) := by
  unfold convert_py_to_ipynb_content convertSuccess
  rw [if_neg (by simp [h])]

theorem convert_some_inv {t d : List Char} {r : ConvertResult}
    (h : convert_py_to_ipynb_content t d = some r) :
    (pyStrip d).isEmpty = false ∧ r = convertSuccess t d := by
  by_cases hd : (pyStrip d).isEmpty = true
  · exfalso
    unfold convert_py_to_ipynb_content at h
    rw [if_pos hd] at h
    exact Option.noConfusion h
  · have hd' : (pyStrip d).isEmpty = false := by simpa using hd
    rw [convert_eq_some t hd'] at h
    refine ⟨hd', ?_⟩
    injection h with h1
    exact h1.symm

theorem convertSuccess_cells (t d : List Char) :
    (convertSuccess t d).notebook.cells =
      finalCells (scanLines (pyStrip d) (splitlines t)) := rfl

theorem convertSuccess_num (t d : List Char) :
    (convertSuccess t d).num_cells =
      (finalCells (scanLines (pyStrip d) (splitlines t))).length := rfl

theorem convertSuccess_warned_nf (t d : List Char) :
    (convertSuccess t d).warned_not_found =
      (!(scanLines (pyStrip d) (splitlines t)).delimiter_found &&
        !(splitlines t).isEmpty &&
        decide ((finalCells (scanLines (pyStrip d) (splitlines t))).length ≤ 1)) := rfl

theorem convertSuccess_found (t d : List Char) :
    (convertSuccess t d).delimiter_found =
      ((scanLines (pyStrip d) (splitlines t)).delimiter_found ||
        (convertSuccess t d).warned_not_found) := rfl

theorem convertSuccess_warned_empty (t d : List Char) :
    (convertSuccess t d).warned_empty_input =
      (!emitLastCond (scanLines (pyStrip d) (splitlines t)) &&
        (splitlines t).isEmpty) := rfl

/-! Claim theorems. -/

/-- C1, counterexample: on the input `"a\rb"` (a bare carriage-return line
boundary) with delimiter `"#"`, the conversion succeeds but concatenating
the produced source lines, after re-adding the trailing newline where the
original span carried one, yields `"a\r\nb"`, not the original `"a\rb"`:
normalization turned the `\r` terminator into `\r\n`, gaining a character. -/
theorem c1_counterexample :
    (convert_py_to_ipynb_content (("a\rb").toList) (("#").toList)).map
        (fun r => restoreCells r.notebook.cells (endsWithNl (("a\rb").toList))) =
      some (("a\r\nb").toList) ∧
    ("a\r\nb").toList ≠ ("a\rb").toList := by
  constructor
  · decide
  · decide

/-- C1 (amended): for any input text whose line boundaries are all `\n`
or `\r\n` (no bare carriage returns or other Unicode line-break
characters) and any valid delimiter, concatenating all source lines of
all cells of the produced document, re-adding the trailing newline
stripped from each cell's final line where the original span carried one,
reproduces the original input text exactly. -/
theorem c1_round_trip (text delimiter : List Char)
    (hb : onlyStdNewlines text = true)
    (r : ConvertResult)
    (hc : convert_py_to_ipynb_content text delimiter = some r) :
    restoreCells r.notebook.cells (endsWithNl text) = text := by
  rcases convert_some_inv hc with ⟨hd, hr⟩
  subst hr
  rw [convertSuccess_cells]
  by_cases ht : text = []
  · subst ht
    rfl
  · have hls : splitlines text ≠ [] := splitlines_ne_nil ht
    have hlast := List.getLast?_eq_getLast (splitlines text) hls
    have he : endsWithNl text = endsWithNl ((splitlines text).getLast hls) := by
      conv_lhs => rw [← splitlines_flatten text]
      exact endsWithNl_flatten_last hls mem_splitlines_ne_nil
    rw [he]
    have hmain := scan_restore (pyStrip delimiter) (splitlines text) initState
      ((splitlines text).getLast hls) (goodLines_splitlines hb)
      (by intro m hm; exact absurd hm (List.not_mem_nil m)) hlast
    simpa [scanLines, initState, splitlines_flatten] using hmain

/-- C1, witness: the amended round trip evaluated on the concrete input
`"a\r\nb\n"` (a `\r\n`-terminated line followed by a `\n`-terminated one)
with delimiter `"#"`. -/
theorem c1_round_trip_witness :
    onlyStdNewlines (("a\r\nb\n").toList) = true ∧
    restoreCells [Cell.mk CellType.code [['a', '\r', '\n'], ['b']]]
        (endsWithNl (("a\r\nb\n").toList)) = ("a\r\nb\n").toList :=
  ⟨by decide,
   c1_round_trip (("a\r\nb\n").toList) (("#").toList) (by decide)
     { notebook := { cells := [Cell.mk CellType.code [['a', '\r', '\n'], ['b']]]
                     nbformat := 4, nbformat_minor := 5 }
       num_cells := 1
       delimiter_found := true
       warned_empty_input := false
       warned_not_found := true }
     (by decide)⟩

/-- C2: the conversion fails (returns the error outcome, modelled `none`)
exactly when the delimiter is empty or whitespace-only after trimming; in
particular, a delimiter that trims to something non-empty never triggers
this failure, and the failure happens before any segmentation, so no
partial document is produced. -/
theorem c2_invalid_delimiter (text delimiter : List Char) :
    convert_py_to_ipynb_content text delimiter = none ↔
      (pyStrip delimiter).isEmpty = true := by
  constructor
  · intro h
    by_contra hx
    have hd : (pyStrip delimiter).isEmpty = false := by simpa using hx
    rw [convert_eq_some text hd] at h
    exact Option.noConfusion h
  · intro h
    unfold convert_py_to_ipynb_content
    rw [if_pos h]

/-- C3: during the scan, a line starts a new cell (the accumulator is reset
to exactly that line and the pending cell is flushed) precisely when the
line, stripped of its own surrounding whitespace, starts with the cleaned
delimiter; concretely, `"   # @title Section 2"` is a delimiter line for
`"# @title"` while `"print(# @title fake)"`, which contains the delimiter
only mid-line, is not. -/
theorem c3_delimiter_prefix_semantics :
    (∀ (cleaned_delimiter line : List Char) (st : ScanState),
        st.current_cell_lines ≠ [] →
        (((stepLine cleaned_delimiter st line).current_cell_lines = [line] ∧
          (stepLine cleaned_delimiter st line).cells.length = st.cells.length + 1) ↔
          cleaned_delimiter.isPrefixOf (pyStrip line) = true)) ∧
    isDelimiterLine (("# @title").toList) (("   # @title Section 2\n").toList) = true ∧
    isDelimiterLine (("# @title").toList) (("print(# @title fake)\n").toList) = false := by
  refine ⟨?_, by decide, by decide⟩
  intro d line st hst
  constructor
  · rintro ⟨h1, h2⟩
    by_contra hx
    have hd : isDelimiterLine d line = false := by
      rw [isDelimiterLine]
      cases hb : d.isPrefixOf (pyStrip line) with
      | false => rfl
      | true => exact absurd hb hx
    rw [stepLine_not_delim hd] at h2
    simp at h2
  · intro hx
    have hd : isDelimiterLine d line = true := hx
    rw [stepLine_delim hd]
    refine ⟨rfl, ?_⟩
    simp only
    rw [if_neg (by simpa using List.isEmpty_eq_false.mpr hst)]
    simp

/-- C3, witness: stepping a mid-scan state (nonempty accumulator) over the
whitespace-indented delimiter line flushes a cell and restarts the
accumulator with that line. -/
theorem c3_delimiter_prefix_semantics_witness :
    (stepLine (("# @title").toList)
        { cells := []
          current_cell_lines := [['x']]
          cell_type := CellType.code
          delimiter_found := false
          processed_first_line := true }
        (("   # @title Section 2\n").toList)).current_cell_lines =
      [("   # @title Section 2\n").toList] ∧
    (stepLine (("# @title").toList)
        { cells := []
          current_cell_lines := [['x']]
          cell_type := CellType.code
          delimiter_found := false
          processed_first_line := true }
        (("   # @title Section 2\n").toList)).cells.length =
      ({ cells := []
         current_cell_lines := [['x']]
         cell_type := CellType.code
         delimiter_found := false
         processed_first_line := true } : ScanState).cells.length + 1 :=
  (c3_delimiter_prefix_semantics.1 (("# @title").toList)
    (("   # @title Section 2\n").toList) _ (by decide)).mpr (by decide)

/-- C4: when a delimiter line is processed, the new cell's type is
markdown exactly when the line contains the substring `[markdown]`
case-insensitively, and code otherwise; the initial cell type, before any
delimiter line, is code. -/
theorem c4_markdown_hint :
    (∀ (cleaned_delimiter line : List Char) (st : ScanState),
        isDelimiterLine cleaned_delimiter line = true →
        (stepLine cleaned_delimiter st line).cell_type =
          (if hasSubstring (line.map Char.toLower) (("[markdown]").toList)
           then CellType.markdown else CellType.code)) ∧
    initState.cell_type = CellType.code := by
  refine ⟨?_, rfl⟩
  intro d line st h
  rw [stepLine_delim h]
  rfl

/-- C4, witness: a delimiter line carrying an upper-case `[MarkDown]`
marker starts a markdown cell. -/
theorem c4_markdown_hint_witness :
    (stepLine (("#").toList) initState (("# [MarkDown] intro\n").toList)).cell_type =
      CellType.markdown := by
  rw [c4_markdown_hint.1 (("#").toList) (("# [MarkDown] intro\n").toList) initState (by decide)]
  decide

/-- C5: when the input is non-empty, the delimiter is valid, and no line
of the input is a delimiter line, conversion succeeds with exactly one
code cell holding all input lines, a cell count of 1, the
delimiter-not-found advisory, and the returned `delimiter_found` flag
overridden to `true`. -/
theorem c5_no_delimiter_single_cell (text delimiter : List Char)
    (ht : text ≠ [])
    (hd : (pyStrip delimiter).isEmpty = false)
    (hnd : ∀ line ∈ splitlines text,
      isDelimiterLine (pyStrip delimiter) line = false) :
    convert_py_to_ipynb_content text delimiter =
      some { notebook := { cells := [create_notebook_cell CellType.code (splitlines text)]
                           nbformat := 4
                           nbformat_minor := 5 }
             num_cells := 1
             delimiter_found := true
             warned_empty_input := false
             warned_not_found := true } := by
  rw [convert_eq_some text hd]
  have hne : splitlines text ≠ [] := splitlines_ne_nil ht
  have hle : (splitlines text).isEmpty = false := List.isEmpty_eq_false.mpr hne
  have hscan : scanLines (pyStrip delimiter) (splitlines text) =
      { cells := []
        current_cell_lines := splitlines text
        cell_type := CellType.code
        delimiter_found := false
        processed_first_line := true } := by
    rw [scanLines, foldl_no_delim _ _ _ hnd]
    simp [initState, hle]
  have hfin : finalCells (scanLines (pyStrip delimiter) (splitlines text)) =
      [create_notebook_cell CellType.code (splitlines text)] := by
    rw [hscan, finalCells_of_current_ne (by simpa using hne)]
    simp
  have hemit : emitLastCond (scanLines (pyStrip delimiter) (splitlines text)) = true := by
    rw [hscan, emitLastCond]
    simp [hle]
  simp only [convertSuccess]
  rw [hfin, hemit, hscan]
  simp [hle]

/-- C5, witness: the claim instantiated on `"a=1\nb=2\n"` with delimiter
`"# @title"`. -/
theorem c5_no_delimiter_single_cell_witness :
    convert_py_to_ipynb_content (("a=1\nb=2\n").toList) (("# @title").toList) =
      some { notebook := { cells := [create_notebook_cell CellType.code
                                       (splitlines (("a=1\nb=2\n").toList))]
                           nbformat := 4
                           nbformat_minor := 5 }
             num_cells := 1
             delimiter_found := true
             warned_empty_input := false
             warned_not_found := true } :=
  c5_no_delimiter_single_cell (("a=1\nb=2\n").toList) (("# @title").toList)
    (by decide) (by decide) (by decide)

/-- C6: in a successful conversion the produced cell list is empty exactly
when the input text is empty, and on empty input the cell count is 0 and
the empty-input advisory is surfaced. -/
theorem c6_cells_empty_iff_empty_input (text delimiter : List Char) (r : ConvertResult)
    (hc : convert_py_to_ipynb_content text delimiter = some r) :
    (r.notebook.cells = [] ↔ text = []) ∧
    (text = [] → r.num_cells = 0 ∧ r.warned_empty_input = true) := by
  rcases convert_some_inv hc with ⟨hd, hr⟩
  subst hr
  constructor
  · constructor
    · intro h
      by_contra ht
      have hne := splitlines_ne_nil ht
      have hcur : (scanLines (pyStrip delimiter) (splitlines text)).current_cell_lines ≠ [] :=
        foldl_current_ne (pyStrip delimiter) (splitlines text) initState hne
      rw [convertSuccess_cells, finalCells_of_current_ne hcur] at h
      exact List.append_ne_nil_of_right_ne_nil _ (by simp) h
    · intro h
      subst h
      rfl
  · intro h
    subst h
    exact ⟨rfl, rfl⟩

/-- C6, witness: the claim instantiated on the empty input with delimiter
`"# @title"`. -/
theorem c6_cells_empty_iff_empty_input_witness :
    (({ notebook := { cells := [], nbformat := 4, nbformat_minor := 5 }
        num_cells := 0
        delimiter_found := false
        warned_empty_input := true
        warned_not_found := false } : ConvertResult).notebook.cells = [] ↔
      ("").toList = ([] : List Char)) ∧
    (("").toList = ([] : List Char) →
      ({ notebook := { cells := [], nbformat := 4, nbformat_minor := 5 }
         num_cells := 0
         delimiter_found := false
         warned_empty_input := true
         warned_not_found := false } : ConvertResult).num_cells = 0 ∧
      ({ notebook := { cells := [], nbformat := 4, nbformat_minor := 5 }
         num_cells := 0
         delimiter_found := false
         warned_empty_input := true
         warned_not_found := false } : ConvertResult).warned_empty_input = true) :=
  c6_cells_empty_iff_empty_input (("").toList) (("# @title").toList) _ (by decide)

theorem foldl_cells_normOk (d : List Char) :
    ∀ (ls : List (List Char)) (st : ScanState),
      (∀ c ∈ st.cells, sourceNormOk c.source = true) →
      ∀ c ∈ (List.foldl (stepLine d) st ls).cells, sourceNormOk c.source = true := by
  intro ls
  induction ls with
  | nil => intro st h; exact h
  | cons ℓ rest ih =>
    intro st h
    rw [List.foldl_cons]
    apply ih
    intro c hc
    rw [stepLine] at hc
    split at hc
    · simp only at hc
      split at hc
      · exact h c hc
      · rcases List.mem_append.mp hc with h1 | h1
        · exact h c h1
        · rw [List.mem_singleton] at h1
          rw [h1]
          exact create_normOk _ _
    · exact h c hc

/-- C7: every cell of every successfully produced document is in source
normal form: every stored line except the last ends with exactly one
trailing newline character, and the final stored line carries no trailing
newline. -/
theorem c7_source_normal_form (text delimiter : List Char) (r : ConvertResult)
    (hc : convert_py_to_ipynb_content text delimiter = some r) :
    ∀ c ∈ r.notebook.cells, sourceNormOk c.source = true := by
  rcases convert_some_inv hc with ⟨hd, hr⟩
  subst hr
  rw [convertSuccess_cells]
  intro c hcmem
  rw [finalCells] at hcmem
  split at hcmem
  · rcases List.mem_append.mp hcmem with h1 | h1
    · exact foldl_cells_normOk (pyStrip delimiter) (splitlines text) initState
        (by intro x hx; exact absurd hx (List.not_mem_nil x)) c h1
    · rw [List.mem_singleton] at h1
      rw [h1]
      exact create_normOk _ _
  · exact foldl_cells_normOk (pyStrip delimiter) (splitlines text) initState
      (by intro x hx; exact absurd hx (List.not_mem_nil x)) c hcmem

/-- C7, witness: the invariant evaluated on the single cell produced from
`"a\nb"`. -/
theorem c7_source_normal_form_witness :
    sourceNormOk (Cell.mk CellType.code [['a', '\n'], ['b']]).source = true :=
  c7_source_normal_form (("a\nb").toList) (("#").toList)
    { notebook := { cells := [Cell.mk CellType.code [['a', '\n'], ['b']]]
                    nbformat := 4, nbformat_minor := 5 }
      num_cells := 1
      delimiter_found := true
      warned_empty_input := false
      warned_not_found := true }
    (by decide) (Cell.mk CellType.code [['a', '\n'], ['b']]) (by simp)

theorem foldl_current_ne_of_start (d : List Char) :
    ∀ (ls : List (List Char)) (st : ScanState), st.current_cell_lines ≠ [] →
      (List.foldl (stepLine d) st ls).current_cell_lines ≠ [] := by
  intro ls
  induction ls with
  | nil => intro st h; exact h
  | cons ℓ rest ih =>
    intro st _
    rw [List.foldl_cons]
    exact ih (stepLine d st ℓ) (stepLine_current_ne d st ℓ)

/-- C8: after scanning any input with any delimiter, a detected delimiter
implies that a line was processed and the accumulator is non-empty, so the
end-of-scan clause `delimiter_found and not processed_first_line` can
never be the sole reason a cell is emitted: the emitted cells are exactly
those the accumulator-non-empty test alone would produce. -/
theorem c8_dead_branch (text delimiter : List Char) (st : ScanState)
    (hst : st = scanLines (pyStrip delimiter) (splitlines text)) :
    (st.delimiter_found = true →
      st.processed_first_line = true ∧ st.current_cell_lines ≠ []) ∧
    finalCells st =
      (if st.current_cell_lines.isEmpty then st.cells
       else st.cells ++ [create_notebook_cell st.cell_type st.current_cell_lines]) := by
  subst hst
  have hinv : (scanLines (pyStrip delimiter) (splitlines text)).delimiter_found = true →
      (scanLines (pyStrip delimiter) (splitlines text)).processed_first_line = true ∧
      (scanLines (pyStrip delimiter) (splitlines text)).current_cell_lines ≠ [] := by
    intro hf
    have hls := scan_found_ne_nil hf
    exact ⟨foldl_processed _ _ _ hls, foldl_current_ne _ _ _ hls⟩
  refine ⟨hinv, ?_⟩
  cases hce : (scanLines (pyStrip delimiter) (splitlines text)).current_cell_lines.isEmpty with
  | false =>
    rw [if_neg (by simp), finalCells_of_current_ne (List.isEmpty_eq_false.mp hce)]
  | true =>
    rw [if_pos rfl, finalCells]
    have hcond : emitLastCond (scanLines (pyStrip delimiter) (splitlines text)) = false := by
      rw [emitLastCond, hce]
      cases hf : (scanLines (pyStrip delimiter) (splitlines text)).delimiter_found with
      | false => simp
      | true =>
        exact absurd (List.isEmpty_eq_true.mp hce) (hinv hf).2
    rw [hcond]
    simp

/-- C8, witness: on the input `"# @title\nx\n"`, whose first line is a
delimiter line, the final scan state has a processed line and a non-empty
accumulator. -/
theorem c8_dead_branch_witness :
    (scanLines (pyStrip (("# @title").toList))
        (splitlines (("# @title\nx\n").toList))).processed_first_line = true ∧
    (scanLines (pyStrip (("# @title").toList))
        (splitlines (("# @title\nx\n").toList))).current_cell_lines ≠ [] :=
  (c8_dead_branch (("# @title\nx\n").toList) (("# @title").toList) _ rfl).1 (by decide)

/-- C9, counterexample: on the spec's multi-cell example the code produces
the two expected cells, but the first stored line of each cell keeps its
trailing newline (`"# @title A\n"`, `"# @title [markdown]\n"`), so the
cells are not literally `["# @title A", "x=1"]` and
`["# @title [markdown]", "## Heading"]` as the claim states. -/
theorem c9_counterexample :
    (convert_py_to_ipynb_content
        (("# @title A\nx=1\n# @title [markdown]\n## Heading\n").toList)
        (("# @title").toList)).map (fun r => r.notebook.cells.map Cell.source) =
      some [[("# @title A\n").toList, ("x=1").toList],
            [("# @title [markdown]\n").toList, ("## Heading").toList]] ∧
    (some [[("# @title A\n").toList, ("x=1").toList],
           [("# @title [markdown]\n").toList, ("## Heading").toList]] :
        Option (List (List (List Char)))) ≠
      some [[("# @title A").toList, ("x=1").toList],
            [("# @title [markdown]").toList, ("## Heading").toList]] := by
  constructor
  · decide
  · decide

/-- C9 (amended): the multi-cell example yields exactly two cells, a code
cell `["# @title A\n", "x=1"]` followed by a markdown cell
`["# @title [markdown]\n", "## Heading"]` — identical to the claim except
that each cell's non-final stored line carries its trailing newline, per
the Cell normalization invariant. -/
theorem c9_multi_cell_example :
    convert_py_to_ipynb_content
        (("# @title A\nx=1\n# @title [markdown]\n## Heading\n").toList)
        (("# @title").toList) =
      some { notebook := { cells :=
               [ { cell_type := CellType.code
                   source := [("# @title A\n").toList, ("x=1").toList] },
                 { cell_type := CellType.markdown
                   source := [("# @title [markdown]\n").toList, ("## Heading").toList] } ]
                           nbformat := 4
                           nbformat_minor := 5 }
             num_cells := 2
             delimiter_found := true
             warned_empty_input := false
             warned_not_found := false } := by
  decide

/-- C10: for a non-empty input (first line `ℓ0`), the number of produced
cells equals the number of delimiter lines, plus one when the first line
is not itself a delimiter line. -/
theorem c10_cell_count (text delimiter : List Char) (r : ConvertResult)
    (ℓ0 : List Char) (rest : List (List Char))
    (hc : convert_py_to_ipynb_content text delimiter = some r)
    (hs : splitlines text = ℓ0 :: rest) :
    r.num_cells =
      countDelimLines (pyStrip delimiter) (splitlines text) +
        (if isDelimiterLine (pyStrip delimiter) ℓ0 then 0 else 1) := by
  rcases convert_some_inv hc with ⟨hd, hr⟩
  subst hr
  rw [convertSuccess_num, hs]
  have h1 : (stepLine (pyStrip delimiter) initState ℓ0).cells = [] := by
    rw [stepLine]
    split <;> simp [initState]
  have h2 : (stepLine (pyStrip delimiter) initState ℓ0).current_cell_lines = [ℓ0] := by
    rw [stepLine]
    split <;> simp [initState]
  have hcur : (List.foldl (stepLine (pyStrip delimiter))
      (stepLine (pyStrip delimiter) initState ℓ0) rest).current_cell_lines ≠ [] :=
    foldl_current_ne_of_start _ _ _ (by rw [h2]; simp)
  rw [scanLines, List.foldl_cons, finalCells_of_current_ne hcur, List.length_append,
      foldl_count _ _ _ (by rw [h2]; simp), h1, countDelim_cons]
  cases hdel : isDelimiterLine (pyStrip delimiter) ℓ0 <;> simp

/-- C10, witness: `"x=0\n# @title a\ny=1\n"` with delimiter `"# @title"`
has one delimiter line, a non-delimiter first line, and two cells. -/
theorem c10_cell_count_witness :
    (2 : Nat) =
      countDelimLines (pyStrip (("# @title").toList))
          (splitlines (("x=0\n# @title a\ny=1\n").toList)) +
        (if isDelimiterLine (pyStrip (("# @title").toList)) (("x=0\n").toList)
         then 0 else 1) :=
  c10_cell_count (("x=0\n# @title a\ny=1\n").toList) (("# @title").toList)
    { notebook := { cells :=
        [ { cell_type := CellType.code, source := [("x=0").toList] },
          { cell_type := CellType.code
            source := [("# @title a\n").toList, ("y=1").toList] } ]
                    nbformat := 4
                    nbformat_minor := 5 }
      num_cells := 2
      delimiter_found := true
      warned_empty_input := false
      warned_not_found := false }
    (("x=0\n").toList)
    [("# @title a\n").toList, ("y=1\n").toList]
    (by decide) (by decide)

end PyToNb
